import Mathlib

/-!
Verification development for the Ai-attendance repository.

The repository stores attendance as rows (Name, Date, Time) in a CSV file
(`attendance.csv`), a user table (`users.csv`), a task table
(`tasks_local.csv`) and one reference face embedding
(`model/face_embedding.npy`).  We embed the row-level logic of
`app.py`, `web_dashboard.py`, `attendance_system_pro.py`,
`recognize_face.py` and `train_model.py` as pure functions on lists of
records.  External libraries (OpenCV, MTCNN, FaceNet, hashlib, pandas
date parsing) appear as parameters or as faithful small models of the
exact calls the code makes.
-/

namespace AiAttendance

/-- One row of `attendance.csv`: columns Name, Date, Time (all strings). -/
structure Record where
  name : String
  date : String
  time : String
deriving Repr, DecidableEq, Inhabited

/-- A parsed calendar date, day-month-year, as produced by
`pd.to_datetime(..., dayfirst=True)` on the `"%d-%m-%Y"` strings this
repository writes. -/
structure DMY where
  day : Nat
  month : Nat
  year : Nat
deriving Repr, DecidableEq, Inhabited

/-- Chronological key of a parsed date: for genuine dates
(day ≤ 31, month ≤ 12) this numeric key is ordered exactly like the
calendar. -/
def dateKey (d : DMY) : Nat :=
  d.year * 10000 + d.month * 100 + d.day

/-- Two-digit zero padding, as `strftime` does for `%d`, `%m`, `%I`, `%M`. -/
def pad2 (n : Nat) : String :=
  if n < 10 then "0" ++ toString n else toString n

/-- `datetime.now().strftime("%d-%m-%Y")`: the date format every writer in
the repository uses for the Date column. -/
def fmtDMY (d : DMY) : String :=
  pad2 d.day ++ "-" ++ pad2 d.month ++ "-" ++ toString d.year

/-- A 12-hour clock time as written by `strftime("%I:%M %p")`. -/
structure Time12 where
  hour12 : Nat
  minute : Nat
  pm : Bool
deriving Repr, DecidableEq, Inhabited

/-- `datetime.now().strftime("%I:%M %p")`: the time format `add_attendance`
in `app.py` uses for the Time column. -/
def fmtTime12 (t : Time12) : String :=
  pad2 t.hour12 ++ ":" ++ pad2 t.minute ++ " " ++ (if t.pm then "PM" else "AM")

/-- Minutes since midnight of a 12-hour clock time: the chronological
meaning of a Time column value (12 AM is hour 0, 12 PM is hour 12). -/
def minutesOf (t : Time12) : Nat :=
  ((t.hour12 % 12) + (if t.pm then 12 else 0)) * 60 + t.minute

/-- Split a character list at every occurrence of `c`
(`str.split("-")` over the characters). -/
def splitOnChar (c : Char) : List Char → List (List Char)
  | [] => [[]]
  | x :: xs =>
    let r := splitOnChar c xs
    if x = c then [] :: r
    else
      match r with
      | [] => [[x]]
      | y :: ys => (x :: y) :: ys

/-- The numeric value of one decimal digit character. -/
def charDigit? (ch : Char) : Option Nat :=
  if ch.isDigit then some (ch.toNat - 48) else none

/-- Read a non-empty all-digit character list as a natural number. -/
def natOfChars (cs : List Char) : Option Nat :=
  if cs.isEmpty then none
  else
    cs.foldl
      (fun acc ch =>
        match acc, charDigit? ch with
        | some n, some d => some (n * 10 + d)
        | _, _ => none)
      (some 0)

/-- `pd.to_datetime(s, dayfirst=True, errors="coerce")` on the
`"dd-mm-yyyy"` strings this repository writes: split on the dashes,
read the three numbers, reject impossible day/month values (pandas
returns NaT, modelled as `none`). -/
def parseDMY (s : String) : Option DMY :=
  match splitOnChar '-' s.toList with
  | [ds, ms, ys] =>
    match natOfChars ds, natOfChars ms, natOfChars ys with
    | some d, some m, some y =>
      if 1 ≤ d ∧ d ≤ 31 ∧ 1 ≤ m ∧ m ≤ 12 then some ⟨d, m, y⟩ else none
    | _, _, _ => none
  | _ => none

/-- Substring test on character lists: `needle` occurs contiguously in
`hay`.  Models pandas `Series.str.contains(pat)` for a pattern free of
regex metacharacters (every name filter the dashboards pass is a plain
name fragment). -/
def containsSub (needle : List Char) (hay : List Char) : Bool :=
  needle.isPrefixOf hay ||
    match hay with
    | [] => false
    | _ :: cs => containsSub needle cs

/-- Character-wise lower-casing (`str.lower()` on ASCII names). -/
def lowerChars (cs : List Char) : List Char :=
  cs.map Char.toLower

/-- Case-insensitive name match:
`df["Name"].str.contains(name, case=False, na=False)`. -/
def nameMatch (q : String) (r : Record) : Bool :=
  containsSub (lowerChars q.toList) (lowerChars r.name.toList)

/-- Code-point lexicographic string comparison on character lists:
exactly how Python (and hence pandas) compares the Time column
strings. -/
def charsLe : List Char → List Char → Bool
  | [], _ => true
  | _ :: _, [] => false
  | a :: as, b :: bs =>
    if a.toNat = b.toNat then charsLe as bs else decide (a.toNat < b.toNat)

/-- `x <= y` on whole strings, code-point lexicographic. -/
def strLe (x y : String) : Bool :=
  charsLe x.toList y.toList

/-- The parsed `DateObj` helper column `load_attendance` adds to each row. -/
def keyOf (r : Record) : Option Nat :=
  (parseDMY r.date).map dateKey

/-- The row order produced by
`df.sort_values(by=["DateObj","Time"], ascending=[False,False])`:
descending by parsed date, ties broken by the raw Time string in
descending lexicographic order; rows whose date failed to parse (NaT)
go last (`na_position="last"`). -/
def recBeforeB (a b : Record) : Bool :=
  match keyOf a, keyOf b with
  | some ka, some kb =>
    decide (kb < ka) || (decide (ka = kb) && strLe b.time a.time)
  | some _, none => true
  | none, some _ => false
  | none, none => true

/-- Propositional form of `recBeforeB`. -/
def recBefore (a b : Record) : Prop :=
  recBeforeB a b = true

instance : DecidableRel recBefore :=
  fun a b => inferInstanceAs (Decidable (recBeforeB a b = true))

/-- The filter dictionary `load_attendance` receives: a (possibly empty)
name fragment and optional already-parsed date bounds. -/
structure Filters where
  qname : String
  dateFrom : Option DMY
  dateTo : Option DMY
deriving Repr, DecidableEq

/-- The date-lower-bound row predicate `df[df["DateObj"] >= pd.to_datetime(d_from)]`:
a NaT `DateObj` compares `False`. -/
def fromPred (lo : DMY) (r : Record) : Bool :=
  match parseDMY r.date with
  | some d => decide (dateKey lo ≤ dateKey d)
  | none => false

/-- The date-upper-bound row predicate `df[df["DateObj"] <= pd.to_datetime(d_to)]`. -/
def toPred (hi : DMY) (r : Record) : Bool :=
  match parseDMY r.date with
  | some d => decide (dateKey d ≤ dateKey hi)
  | none => false

/-- `load_attendance` of `app.py` (Firebase disabled) and
`web_dashboard.py`: read the rows, derive `DateObj` from the Date
string, apply the optional name filter and the optional inclusive date
bounds, sort by `["DateObj","Time"]` descending, drop `DateObj`. -/
def loadAttendance (store : List Record) (filters : Option Filters) : List Record :=
  let df :=
    match filters with
    | none => store
    | some fs =>
      let df := if fs.qname = "" then store else store.filter (nameMatch fs.qname)
      let df :=
        match fs.dateFrom with
        | none => df
        | some lo => df.filter (fromPred lo)
      match fs.dateTo with
      | none => df
      | some hi => df.filter (toPred hi)
  List.insertionSort recBefore df

/-- `add_attendance(name)` of `app.py`: read the attendance rows and
append one row `[name, now.strftime("%d-%m-%Y"), now.strftime("%I:%M %p")]`,
with no duplicate check; the current instant is the `(d, tm)` argument. -/
def addAttendance (store : List Record) (name : String) (d : DMY) (tm : Time12) :
    List Record :=
  store ++ [⟨name, fmtDMY d, fmtTime12 tm⟩]

/-- Number of attendance rows with the given Name and Date values. -/
def countFor (store : List Record) (n dstr : String) : Nat :=
  (store.filter (fun r => r.name = n && r.date = dstr)).length

/-- `((df["Name"]=="Aman") & (df["Date"]==date)).any()`: the duplicate
check `attendance_system_pro.py` runs before appending a row. -/
def hasRecordFor (store : List Record) (n dstr : String) : Bool :=
  store.any (fun r => r.name = n && r.date = dstr)

/-- The observable persistence events of one pass through the marking
block of `attendance_system_pro.py`, in program order. -/
inductive SyncEvent where
  | localWrite
  | syncOk
  | syncError (msg : String)
deriving Repr, DecidableEq

/-- The handling of one detected face in the main loop of
`attendance_system_pro.py` (lines 56–91): compute the cosine similarity
`sim`, classify as "Aman" iff `sim > 0.70`, and on acceptance append a
row for (Aman, date) unless one already exists; after the local CSV
write, if Firebase is enabled, attempt the cloud mirror — modelled by
the `sync` argument — catching any failure and logging it.  Returns the
new attendance rows together with the persistence events of this pass. -/
def processFacePro (store : List Record) (sim : ℚ) (date tstr : String)
    (useFirebase : Bool) (sync : Except String Unit) :
    List Record × List SyncEvent :=
  let name := if sim > 7/10 then "Aman" else "Unknown"
  if name = "Aman" then
    if hasRecordFor store "Aman" date then (store, [])
    else
      let store' := store ++ [⟨"Aman", date, tstr⟩]
      if useFirebase then
        match sync with
        | Except.ok _ => (store', [SyncEvent.localWrite, SyncEvent.syncOk])
        | Except.error e => (store', [SyncEvent.localWrite, SyncEvent.syncError e])
      else (store', [SyncEvent.localWrite])
  else (store, [])

/-- A whole day of the `attendance_system_pro.py` loop: every
above-or-below-threshold face observed on day `date`, processed in
order (Firebase disabled; its outcome never touches the local rows). -/
def runDayPro (store : List Record) (date : String) (frames : List (ℚ × String)) :
    List Record :=
  frames.foldl (fun s p => (processFacePro s p.1 date p.2 false (Except.ok ())).1) store

/-- The label `recognize_face.py` renders for a face (lines 49–54):
Access Granted iff the cosine similarity strictly exceeds
`THRESHOLD = 0.75` (the on-frame numeric interpolation of the score is
omitted); the script maintains no attendance store at all. -/
def recognizeFaceLabel (sim : ℚ) : String :=
  if sim > 3/4 then "Access Granted" else "Unknown"

/-- One iteration's worth of camera input: did `cap.read()` succeed, and
was Q pressed during this iteration. -/
structure FrameIn where
  ret : Bool
  quit : Bool
deriving Repr, DecidableEq

/-- How a recognition loop left its `while True` body. -/
inductive LoopExit where
  /-- The loop broke out normally and reached `cap.release()`. -/
  | released
  /-- An uncaught exception escaped the loop; the `cap.release()` after
  the loop was never executed. -/
  | crashed
  /-- The supplied input was exhausted with the loop still streaming. -/
  | streaming
deriving Repr, DecidableEq

/-- The main loop of `recognize_face.py` (lines 26–65) over a finite
prefix of camera inputs: a failed `cap.read()` hits the `if not ret:
break` guard, the loop breaks, and `cap.release()` runs; a Q keypress
breaks after the frame is processed.  Returns how the loop exited and
how many frames were fully processed. -/
def runRecognize : List FrameIn → LoopExit × Nat
  | [] => (LoopExit.streaming, 0)
  | f :: rest =>
    if f.ret = false then (LoopExit.released, 0)
    else if f.quit then (LoopExit.released, 1)
    else
      let r := runRecognize rest
      (r.1, r.2 + 1)

/-- The main loop of `attendance_system_pro.py` (lines 40–98) over a
finite prefix of camera inputs: the result of `cap.read()` is never
checked, so a failed read leaves `frame = None` and the immediate
`cv2.cvtColor(frame, ...)` call raises, escaping the loop without
reaching the `cap.release()` on line 98. -/
def runPro : List FrameIn → LoopExit × Nat
  | [] => (LoopExit.streaming, 0)
  | f :: rest =>
    if f.ret = false then (LoopExit.crashed, 0)
    else if f.quit then (LoopExit.released, 1)
    else
      let r := runPro rest
      (r.1, r.2 + 1)

/-- A face embedding: a fixed-length vector of reals (FaceNet returns
512 floats; we model the arithmetic over ℚ). -/
abbrev Emb : Type := List ℚ

/-- Element-wise vector sum, `np.sum`/`+` on equal-length vectors. -/
def vadd (a b : Emb) : Emb :=
  List.zipWith (· + ·) a b

/-- The image walk of `train_model.py` (lines 22–57): each image either
yields an embedding (face detected, cropped, embedded) or is skipped;
successful embeddings are appended in order to the `embeddings` list. -/
def collectEmbeddings (imgs : List (Option Emb)) : List Emb :=
  imgs.foldl (fun acc o => match o with | some e => acc ++ [e] | none => acc) []

/-- `np.mean(embeddings, axis=0)` on a non-empty list of equal-length
vectors: element-wise sum divided by the count; empty input has no mean
(the script exits first). -/
def meanEmbedding : List Emb → Option Emb
  | [] => none
  | e :: es => some (((es.foldl vadd e)).map (fun x => x / ((es.length : ℚ) + 1)))

/-- `train_model.py` lines 59–72: collect the embeddings, exit with an
error when none were produced, otherwise compute the mean embedding
(the value saved to `model/face_embedding.npy`). -/
def trainModel (imgs : List (Option Emb)) : Option Emb :=
  meanEmbedding (collectEmbeddings imgs)

/-- The reference-embedding file after running `train_model.py`:
unchanged when training exits with no embeddings, otherwise overwritten
with the computed mean. -/
def trainRun (prev : Option Emb) (imgs : List (Option Emb)) : Option Emb :=
  match trainModel imgs with
  | none => prev
  | some v => some v

/-- One row of `tasks_local.csv`:
columns user, task, status, date, time, created. -/
structure TaskRow where
  user : String
  task : String
  status : String
  date : String
  time : String
  created : String
deriving Repr, DecidableEq, Inhabited

/-- `df[df["user"] == user].index` followed by `idx[-1]`: the position of
the last (most recently appended) task row belonging to `u`, if any. -/
def lastMatchIdx (rows : List TaskRow) (u : String) : Option Nat :=
  match rows with
  | [] => none
  | r :: rs =>
    match lastMatchIdx rs u with
    | some i => some (i + 1)
    | none => if r.user = u then some 0 else none

/-- The local-file branch of `update_task` in `app.py` (lines 431–440):
find the rows whose user column equals the session username; if any
exist, set the status cell of the last one and rewrite the file;
otherwise leave the file alone. -/
def updateTask (rows : List TaskRow) (u newStatus : String) : List TaskRow :=
  match lastMatchIdx rows u with
  | none => rows
  | some i => rows.set i { rows.getD i default with status := newStatus }

/-- One row of `users.csv`:
columns Username, FullName, Password (hash), Created. -/
structure UserRow where
  username : String
  fullName : String
  password : String
  created : String
deriving Repr, DecidableEq, Inhabited

/-- `drop_duplicates(subset=["Username"], keep="last")` inside
`safe_read_users`: keep each row iff no later row carries the same
username. -/
def dedupLast : List UserRow → List UserRow
  | [] => []
  | r :: rs =>
    if rs.any (fun x => x.username = r.username) then dedupLast rs
    else r :: dedupLast rs

/-- The POST branch of `add_user` in `app.py` (lines 506–527): reject a
blank username or password; read the users through `safe_read_users`
(modelled on a fully-parsed file as the keep-last dedup); reject when
the username already exists, leaving the file unwritten; otherwise
append one row (username, full name, password hash, creation date) and
write.  The SHA-256 of `hash_password` is the external `hashPwd`. -/
def addUser (hashPwd : String → String) (file : List UserRow)
    (uname fname pwd today : String) : List UserRow :=
  if uname = "" ∨ pwd = "" then file
  else
    let df := dedupLast file
    if df.any (fun x => x.username = uname) then file
    else df ++ [⟨uname, fname, hashPwd pwd, today⟩]

/-! ### Helper lemmas -/

theorem countFor_append (a b : List Record) (n dstr : String) :
    countFor (a ++ b) n dstr = countFor a n dstr + countFor b n dstr := by
  simp [countFor, List.filter_append]

theorem hasRecordFor_false_iff (s : List Record) (n dstr : String) :
    hasRecordFor s n dstr = false ↔ countFor s n dstr = 0 := by
  simp [hasRecordFor, countFor, List.length_eq_zero, List.filter_eq_nil_iff,
    List.any_eq_false]

theorem processFacePro_fst (s : List Record) (sim : ℚ) (d t : String)
    (fb : Bool) (sync : Except String Unit) :
    (processFacePro s sim d t fb sync).1 =
      if sim > 7/10 ∧ hasRecordFor s "Aman" d = false
      then s ++ [⟨"Aman", d, t⟩] else s := by
  unfold processFacePro
  by_cases hsim : sim > 7/10
  · cases hdup : hasRecordFor s "Aman" d
    · cases fb <;> cases sync <;> simp [hsim, hdup]
    · simp [hsim, hdup]
  · simp [hsim]

theorem countFor_singleton_match (d t : String) :
    countFor [⟨"Aman", d, t⟩] "Aman" d = 1 := by
  simp [countFor]

theorem countFor_processFacePro (s : List Record) (sim : ℚ) (d t : String)
    (fb : Bool) (sync : Except String Unit) :
    countFor (processFacePro s sim d t fb sync).1 "Aman" d
      ≤ max (countFor s "Aman" d) 1 := by
  rw [processFacePro_fst]
  by_cases h : sim > 7/10 ∧ hasRecordFor s "Aman" d = false
  · rw [if_pos h, countFor_append, (hasRecordFor_false_iff s "Aman" d).mp h.2,
      countFor_singleton_match]
    omega
  · rw [if_neg h]
    exact le_max_left _ _

theorem countFor_runDayPro (s : List Record) (d : String)
    (frames : List (ℚ × String)) :
    countFor (runDayPro s d frames) "Aman" d ≤ max (countFor s "Aman" d) 1 := by
  induction frames generalizing s with
  | nil => exact le_max_left _ _
  | cons p rest ih =>
    have hstep := countFor_processFacePro s p.1 d p.2 false (Except.ok ())
    have hrest := ih (processFacePro s p.1 d p.2 false (Except.ok ())).1
    calc countFor (runDayPro s d (p :: rest)) "Aman" d
        = countFor (runDayPro (processFacePro s p.1 d p.2 false (Except.ok ())).1 d rest)
            "Aman" d := rfl
      _ ≤ max (countFor (processFacePro s p.1 d p.2 false (Except.ok ())).1 "Aman" d) 1 :=
            hrest
      _ ≤ max (max (countFor s "Aman" d) 1) 1 := by
            exact max_le_max_right 1 hstep
      _ = max (countFor s "Aman" d) 1 := by omega

/-! ### Claim theorems -/

/-- C1: in the recognition loops, a cosine similarity at or below the
threshold (0.70 in `attendance_system_pro.py`, 0.75 in
`recognize_face.py`) never yields an attendance append (the face is
labelled Unknown), and acceptance — hence any append — requires a
similarity strictly greater than the threshold. -/
theorem c1_threshold_gate (store : List Record) (sim : ℚ) (d t : String)
    (fb : Bool) (sync : Except String Unit) :
    (sim ≤ 7/10 → (processFacePro store sim d t fb sync).1 = store) ∧
    (sim ≤ 3/4 → recognizeFaceLabel sim = "Unknown") ∧
    (7/10 < sim → hasRecordFor store "Aman" d = false →
      (processFacePro store sim d t fb sync).1 = store ++ [⟨"Aman", d, t⟩]) := by
  refine ⟨?_, ?_, ?_⟩
  · intro h
    unfold processFacePro
    simp [not_lt.mpr h]
  · intro h
    unfold recognizeFaceLabel
    simp [not_lt.mpr h]
  · intro hsim hdup
    unfold processFacePro
    cases fb <;> cases sync <;> simp [hsim, hdup]

/-- Witness for C1 at concrete inputs: similarity 0.5 appends nothing
and is labelled Unknown; similarity 0.8 on a fresh day appends the
(Aman, date) row. -/
theorem c1_threshold_gate_witness :
    (processFacePro [] (1/2 : ℚ) "05-03-2024" "09:00:00 AM" false (Except.ok ())).1 = [] ∧
    recognizeFaceLabel (1/2 : ℚ) = "Unknown" ∧
    (processFacePro [] (4/5 : ℚ) "05-03-2024" "09:00:00 AM" false (Except.ok ())).1
      = [⟨"Aman", "05-03-2024", "09:00:00 AM"⟩] :=
  ⟨(c1_threshold_gate [] (1/2) "05-03-2024" "09:00:00 AM" false (Except.ok ())).1
      (by norm_num),
   (c1_threshold_gate [] (1/2) "05-03-2024" "09:00:00 AM" false (Except.ok ())).2.1
      (by norm_num),
   (c1_threshold_gate [] (4/5) "05-03-2024" "09:00:00 AM" false (Except.ok ())).2.2
      (by norm_num) (by decide)⟩

/-- C2: over any number of frames processed on one day, the
`attendance_system_pro.py` loop ends with at most `max initial 1` rows
for (Aman, date) — so starting from a day with no such row it appends at
most one — because each pass checks for an existing (Name, Date) row
and appends only if none exists: when a row is already present the pass
leaves the store unchanged. -/
theorem c2_once_per_day (store : List Record) (d : String)
    (frames : List (ℚ × String)) :
    countFor (runDayPro store d frames) "Aman" d ≤ max (countFor store "Aman" d) 1 ∧
    (∀ (sim : ℚ) (t : String) (fb : Bool) (sync : Except String Unit),
      hasRecordFor store "Aman" d = true →
        (processFacePro store sim d t fb sync).1 = store) := by
  refine ⟨countFor_runDayPro store d frames, ?_⟩
  intro sim t fb sync hdup
  unfold processFacePro
  by_cases hsim : sim > 7/10 <;> simp [hsim, hdup]

/-- Witness for C2: three qualifying frames on an empty store produce
exactly one (Aman, date) row, and a pass on a store already holding the
row changes nothing. -/
theorem c2_once_per_day_witness :
    countFor (runDayPro [] "05-03-2024"
        [(4/5, "09:00:00 AM"), (9/10, "09:00:01 AM"), (1, "09:00:02 AM")])
      "Aman" "05-03-2024" ≤ max (countFor [] "Aman" "05-03-2024") 1 ∧
    (processFacePro [⟨"Aman", "05-03-2024", "09:00:00 AM"⟩] (9/10) "05-03-2024"
        "10:00:00 AM" false (Except.ok ())).1
      = [⟨"Aman", "05-03-2024", "09:00:00 AM"⟩] :=
  ⟨(c2_once_per_day [] "05-03-2024"
      [(4/5, "09:00:00 AM"), (9/10, "09:00:01 AM"), (1, "09:00:02 AM")]).1,
   (c2_once_per_day [⟨"Aman", "05-03-2024", "09:00:00 AM"⟩] "05-03-2024" []).2
      (9/10) "10:00:00 AM" false (Except.ok ()) (by decide)⟩

/-- C5: appending a row through `add_attendance` and reading the store
back through `load_attendance` yields a record with the identical
(Name, Date, Time) strings, the date in `"%d-%m-%Y"` day-month-year
format and the time in `"%I:%M %p"` 12-hour format. -/
theorem c5_roundtrip (store : List Record) (n : String) (d : DMY) (tm : Time12) :
    (⟨n, fmtDMY d, fmtTime12 tm⟩ : Record) ∈
      loadAttendance (addAttendance store n d tm) none := by
  unfold loadAttendance addAttendance
  simp

/-- C6: in the marking block of `attendance_system_pro.py`, the local
CSV rows after a failing Firebase mirror equal those after a succeeding
one (the local write is already committed and is never rolled back),
the mirror is only ever attempted after the local write (the event
trace places `localWrite` before the logged `syncError`), and on an
accepted fresh face the pass still returns normally with the appended
row — the mirror failure is caught, logged, and non-fatal. -/
theorem c6_mirror_nonfatal (store : List Record) (sim : ℚ) (d t e : String) :
    (processFacePro store sim d t true (Except.error e)).1
      = (processFacePro store sim d t true (Except.ok ())).1 ∧
    (SyncEvent.syncError e ∈ (processFacePro store sim d t true (Except.error e)).2 →
      (processFacePro store sim d t true (Except.error e)).2
        = [SyncEvent.localWrite, SyncEvent.syncError e]) ∧
    (7/10 < sim → hasRecordFor store "Aman" d = false →
      processFacePro store sim d t true (Except.error e)
        = (store ++ [⟨"Aman", d, t⟩], [SyncEvent.localWrite, SyncEvent.syncError e])) := by
  unfold processFacePro
  by_cases hsim : sim > 7/10
  · cases hdup : hasRecordFor store "Aman" d <;> simp [hsim, hdup]
  · simp [hsim]

/-- Witness for C6 at a concrete accepted face with a failing mirror:
the row is appended locally and the trace is local write then logged
sync error. -/
theorem c6_mirror_nonfatal_witness :
    processFacePro [] (4/5 : ℚ) "05-03-2024" "09:00:00 AM" true (Except.error "boom")
      = ([⟨"Aman", "05-03-2024", "09:00:00 AM"⟩],
         [SyncEvent.localWrite, SyncEvent.syncError "boom"]) :=
  (c6_mirror_nonfatal [] (4/5) "05-03-2024" "09:00:00 AM" "boom").2.2
    (by norm_num) (by decide)

/-- C7 counterexample: in `attendance_system_pro.py` a failed
`cap.read()` is never checked, so the `cv2.cvtColor` on the `None`
frame raises and the loop exits by exception without executing
`cap.release()` — the loop does terminate, but the camera is not
released, contradicting the claim for this file. -/
theorem c7_release_cex :
    runPro [⟨false, false⟩] = (LoopExit.crashed, 0) ∧
    LoopExit.crashed ≠ LoopExit.released := by
  exact ⟨rfl, by decide⟩

/-- C7 (amended): `recognize_face.py` is the claimed two-state machine —
a failed frame read breaks the loop, which then releases the camera,
and a stop request (Q) does the same after the current frame; in
`attendance_system_pro.py`, however, a failed read is unchecked and
raises out of the loop without reaching the camera release.  In both
cases no later input is processed. -/
theorem c7_frame_failure (pre post : List FrameIn) (q : Bool)
    (hpre : ∀ f ∈ pre, f.ret = true ∧ f.quit = false) :
    runRecognize (pre ++ ⟨false, q⟩ :: post) = (LoopExit.released, pre.length) ∧
    runPro (pre ++ ⟨false, q⟩ :: post) = (LoopExit.crashed, pre.length) ∧
    runRecognize (pre ++ ⟨true, true⟩ :: post) = (LoopExit.released, pre.length + 1) := by
  induction pre with
  | nil => simp [runRecognize, runPro]
  | cons f rest ih =>
    have hf := hpre f (List.mem_cons_self f rest)
    have hrest : ∀ g ∈ rest, g.ret = true ∧ g.quit = false :=
      fun g hg => hpre g (List.mem_cons_of_mem f hg)
    obtain ⟨h1, h2⟩ := hf
    obtain ⟨e1, e2, e3⟩ := ih hrest
    simp [runRecognize, runPro, h1, h2, e1, e2, e3]

/-- Witness for C7 (amended) after one good frame: read failure stops
`recognize_face.py` with the camera released but crashes
`attendance_system_pro.py` unreleased; Q stops cleanly. -/
theorem c7_frame_failure_witness :
    runRecognize [⟨true, false⟩, ⟨false, false⟩] = (LoopExit.released, 1) ∧
    runPro [⟨true, false⟩, ⟨false, false⟩] = (LoopExit.crashed, 1) ∧
    runRecognize [⟨true, false⟩, ⟨true, true⟩] = (LoopExit.released, 2) :=
  c7_frame_failure [⟨true, false⟩] [] false (by decide)

theorem charsLe_total : ∀ as bs : List Char,
    charsLe as bs = true ∨ charsLe bs as = true := by
  intro as
  induction as with
  | nil => intro bs; exact Or.inl rfl
  | cons a as ih =>
    intro bs
    cases bs with
    | nil => exact Or.inr rfl
    | cons b bs =>
      simp only [charsLe]
      by_cases h : a.toNat = b.toNat
      · rw [if_pos h, if_pos h.symm]
        exact ih bs
      · rw [if_neg h, if_neg (fun he => h he.symm)]
        simp only [decide_eq_true_eq]
        omega

theorem charsLe_trans : ∀ as bs cs : List Char,
    charsLe as bs = true → charsLe bs cs = true → charsLe as cs = true := by
  intro as
  induction as with
  | nil => intro bs cs _ _; rfl
  | cons a as ih =>
    intro bs cs hab hbc
    cases bs with
    | nil => simp [charsLe] at hab
    | cons b bs =>
      cases cs with
      | nil => simp [charsLe] at hbc
      | cons c cs =>
        simp only [charsLe] at hab hbc ⊢
        by_cases h1 : a.toNat = b.toNat <;> by_cases h2 : b.toNat = c.toNat
        · rw [if_pos h1] at hab
          rw [if_pos h2] at hbc
          rw [if_pos (h1.trans h2)]
          exact ih bs cs hab hbc
        · rw [if_pos h1] at hab
          rw [if_neg h2, decide_eq_true_eq] at hbc
          rw [if_neg (by omega), decide_eq_true_eq]
          omega
        · rw [if_neg h1, decide_eq_true_eq] at hab
          rw [if_pos h2] at hbc
          rw [if_neg (by omega), decide_eq_true_eq]
          omega
        · rw [if_neg h1, decide_eq_true_eq] at hab
          rw [if_neg h2, decide_eq_true_eq] at hbc
          rw [if_neg (by omega), decide_eq_true_eq]
          omega

instance : IsTotal Record recBefore := by
  constructor
  intro a b
  unfold recBefore recBeforeB
  rcases keyOf a with _ | ka <;> rcases keyOf b with _ | kb
  · exact Or.inl rfl
  · exact Or.inr rfl
  · exact Or.inl rfl
  · simp only [Bool.or_eq_true, Bool.and_eq_true, decide_eq_true_eq]
    rcases Nat.lt_trichotomy ka kb with h | h | h
    · exact Or.inr (Or.inl h)
    · rcases charsLe_total b.time.toList a.time.toList with ht | ht
      · exact Or.inl (Or.inr ⟨h, ht⟩)
      · exact Or.inr (Or.inr ⟨h.symm, ht⟩)
    · exact Or.inl (Or.inl h)

instance : IsTrans Record recBefore := by
  constructor
  intro a b c
  unfold recBefore recBeforeB
  rcases keyOf a with _ | ka <;> rcases keyOf b with _ | kb <;>
    rcases keyOf c with _ | kc <;>
    simp only [Bool.or_eq_true, Bool.and_eq_true, decide_eq_true_eq] <;>
    intro hab hbc <;> try trivial
  rcases hab with h1 | ⟨h1, h1t⟩ <;> rcases hbc with h2 | ⟨h2, h2t⟩
  · exact Or.inl (by omega)
  · exact Or.inl (by omega)
  · exact Or.inl (by omega)
  · exact Or.inr ⟨by omega, charsLe_trans _ _ _ h2t h1t⟩

/-- The conjunction of the three row predicates `load_attendance`
applies for a query with a name fragment and both date bounds. -/
def keepB (q : String) (lo hi : DMY) (r : Record) : Bool :=
  nameMatch q r && fromPred lo r && toPred hi r

theorem loadAttendance_full_query (store : List Record) (q : String)
    (lo hi : DMY) (hq : q ≠ "") :
    loadAttendance store (some ⟨q, some lo, some hi⟩)
      = List.insertionSort recBefore (store.filter (keepB q lo hi)) := by
  unfold loadAttendance
  simp only [if_neg hq]
  rw [List.filter_filter, List.filter_filter]
  congr 1
  apply List.filter_congr
  intro a _
  unfold keepB
  cases nameMatch q a <;> cases fromPred lo a <;> cases toPred hi a <;> rfl

theorem keepB_iff (q : String) (lo hi : DMY) (r : Record) :
    keepB q lo hi r = true ↔
      (containsSub (lowerChars q.toList) (lowerChars r.name.toList) = true ∧
        ∃ d, parseDMY r.date = some d ∧
          dateKey lo ≤ dateKey d ∧ dateKey d ≤ dateKey hi) := by
  unfold keepB nameMatch fromPred toPred
  rcases h : parseDMY r.date with _ | d <;> simp [h, and_assoc]

/-- C4 counterexample: the claimed "most recent first" order fails
within a day, because `sort_values` compares the raw 12-hour-clock Time
strings lexicographically.  For two same-date rows timed "09:00 AM" and
"01:00 PM", the query result places "09:00 AM" first even though
"01:00 PM" (780 minutes past midnight, versus 540) is the more recent. -/
theorem c4_most_recent_cex :
    loadAttendance
        [⟨"Aman", "05-03-2024", "01:00 PM"⟩, ⟨"Aman", "05-03-2024", "09:00 AM"⟩]
        (some ⟨"aman", some ⟨1, 3, 2024⟩, some ⟨31, 3, 2024⟩⟩)
      = [⟨"Aman", "05-03-2024", "09:00 AM"⟩, ⟨"Aman", "05-03-2024", "01:00 PM"⟩] ∧
    fmtTime12 ⟨9, 0, false⟩ = "09:00 AM" ∧
    fmtTime12 ⟨1, 0, true⟩ = "01:00 PM" ∧
    minutesOf ⟨9, 0, false⟩ < minutesOf ⟨1, 0, true⟩ := by
  exact ⟨by decide, rfl, rfl, by decide⟩

/-- C4 (amended): for a query with a non-empty name fragment and both
date bounds, `load_attendance` returns exactly (as a permutation, i.e.
with multiplicity) the records whose Name contains the fragment
case-insensitively and whose parsed date lies in the inclusive range,
ordered descending by parsed date with ties broken by the raw Time
string in descending lexicographic order — which for 12-hour-clock
strings does not always coincide with chronological "most recent
first" order. -/
theorem c4_filter_sort (store : List Record) (q : String) (lo hi : DMY)
    (hq : q ≠ "") :
    (loadAttendance store (some ⟨q, some lo, some hi⟩)).Perm
        (store.filter (keepB q lo hi)) ∧
    List.Sorted recBefore (loadAttendance store (some ⟨q, some lo, some hi⟩)) ∧
    (∀ r, keepB q lo hi r = true ↔
      (containsSub (lowerChars q.toList) (lowerChars r.name.toList) = true ∧
        ∃ d, parseDMY r.date = some d ∧
          dateKey lo ≤ dateKey d ∧ dateKey d ≤ dateKey hi)) := by
  rw [loadAttendance_full_query store q lo hi hq]
  exact ⟨List.perm_insertionSort recBefore _,
    List.sorted_insertionSort recBefore _,
    fun r => keepB_iff q lo hi r⟩

/-- Witness for C4 (amended) on a two-row store: the result is a
permutation of the filtered rows and is sorted in the file's descending
(date, time-string) order. -/
theorem c4_filter_sort_witness :
    (loadAttendance
        [⟨"Aman", "05-03-2024", "09:00 AM"⟩, ⟨"Bob", "04-03-2024", "08:00 AM"⟩]
        (some ⟨"am", some ⟨1, 3, 2024⟩, some ⟨31, 3, 2024⟩⟩)).Perm
      ([⟨"Aman", "05-03-2024", "09:00 AM"⟩, ⟨"Bob", "04-03-2024", "08:00 AM"⟩].filter
        (keepB "am" ⟨1, 3, 2024⟩ ⟨31, 3, 2024⟩)) ∧
    List.Sorted recBefore
      (loadAttendance
        [⟨"Aman", "05-03-2024", "09:00 AM"⟩, ⟨"Bob", "04-03-2024", "08:00 AM"⟩]
        (some ⟨"am", some ⟨1, 3, 2024⟩, some ⟨31, 3, 2024⟩⟩)) :=
  ⟨(c4_filter_sort [⟨"Aman", "05-03-2024", "09:00 AM"⟩,
      ⟨"Bob", "04-03-2024", "08:00 AM"⟩] "am" ⟨1, 3, 2024⟩ ⟨31, 3, 2024⟩
      (by decide)).1,
   (c4_filter_sort [⟨"Aman", "05-03-2024", "09:00 AM"⟩,
      ⟨"Bob", "04-03-2024", "08:00 AM"⟩] "am" ⟨1, 3, 2024⟩ ⟨31, 3, 2024⟩
      (by decide)).2.1⟩

theorem collectEmbeddings_go (imgs : List (Option Emb)) (acc : List Emb) :
    imgs.foldl (fun acc o => match o with | some e => acc ++ [e] | none => acc) acc
      = acc ++ imgs.filterMap id := by
  induction imgs generalizing acc with
  | nil => simp
  | cons o rest ih =>
    cases o <;> simp [List.filterMap_cons, ih]

theorem collectEmbeddings_eq (imgs : List (Option Emb)) :
    collectEmbeddings imgs = imgs.filterMap id := by
  simpa using collectEmbeddings_go imgs []

theorem getD_vadd (a : Emb) : ∀ (b : Emb) (i : Nat), i < a.length → i < b.length →
    (vadd a b).getD i 0 = a.getD i 0 + b.getD i 0 := by
  induction a with
  | nil => intro b i hi _; simp at hi
  | cons x xs ih =>
    intro b i hi hib
    cases b with
    | nil => simp at hib
    | cons y ys =>
      cases i with
      | zero => simp [vadd]
      | succ j =>
        simp only [vadd, List.zipWith_cons_cons, List.getD_cons_succ]
        exact ih ys j (Nat.lt_of_succ_lt_succ hi) (Nat.lt_of_succ_lt_succ hib)

theorem length_vadd (a b : Emb) : (vadd a b).length = min a.length b.length :=
  List.length_zipWith ..

theorem foldl_vadd_length (es : List Emb) : ∀ v : Emb,
    (∀ e ∈ es, e.length = v.length) → (es.foldl vadd v).length = v.length := by
  induction es with
  | nil => intro v _; rfl
  | cons e rest ih =>
    intro v hlen
    have h1 : (vadd v e).length = v.length := by
      rw [length_vadd, hlen e (List.mem_cons_self e rest), min_self]
    have h2 : ∀ x ∈ rest, x.length = (vadd v e).length := by
      intro x hx
      rw [h1, hlen x (List.mem_cons_of_mem e hx)]
    calc ((e :: rest).foldl vadd v).length
        = (rest.foldl vadd (vadd v e)).length := rfl
      _ = (vadd v e).length := ih (vadd v e) h2
      _ = v.length := h1

theorem foldl_vadd_getD (es : List Emb) : ∀ (v : Emb) (i : Nat),
    (∀ e ∈ es, e.length = v.length) → i < v.length →
    (es.foldl vadd v).getD i 0
      = v.getD i 0 + (es.map (fun e => e.getD i 0)).sum := by
  induction es with
  | nil => intro v i _ _; simp
  | cons e rest ih =>
    intro v i hlen hi
    have h1 : (vadd v e).length = v.length := by
      rw [length_vadd, hlen e (List.mem_cons_self e rest), min_self]
    have h2 : ∀ x ∈ rest, x.length = (vadd v e).length := by
      intro x hx
      rw [h1, hlen x (List.mem_cons_of_mem e hx)]
    have h3 : i < (vadd v e).length := by rw [h1]; exact hi
    have h4 : i < e.length := by
      rw [hlen e (List.mem_cons_self e rest)]; exact hi
    calc ((e :: rest).foldl vadd v).getD i 0
        = (rest.foldl vadd (vadd v e)).getD i 0 := rfl
      _ = (vadd v e).getD i 0 + (rest.map (fun x => x.getD i 0)).sum := ih _ i h2 h3
      _ = v.getD i 0 + e.getD i 0 + (rest.map (fun x => x.getD i 0)).sum := by
            rw [getD_vadd v e i hi h4]
      _ = v.getD i 0 + ((e :: rest).map (fun x => x.getD i 0)).sum := by
            simp [add_assoc]

theorem getD_map_div (l : List ℚ) (k : ℚ) : ∀ i : Nat, i < l.length →
    (l.map (fun x => x / k)).getD i 0 = l.getD i 0 / k := by
  induction l with
  | nil => intro i hi; simp at hi
  | cons x xs ih =>
    intro i hi
    cases i with
    | zero => simp
    | succ j => simpa using ih j (Nat.lt_of_succ_lt_succ hi)

/-- C3: enrollment over N images of which k yield an embedding saves as
the reference exactly the element-wise mean of those k vectors — when
the embeddings all have the model dimension, every component of the
saved vector is their component sum divided by k — and when k = 0 the
script exits before any write, leaving the previous reference file
untouched. -/
theorem c3_enrollment_mean (imgs : List (Option Emb)) (prev : Option Emb)
    (dim : Nat) :
    (imgs.filterMap id = [] → trainModel imgs = none ∧ trainRun prev imgs = prev) ∧
    ((∀ e ∈ imgs.filterMap id, e.length = dim) → imgs.filterMap id ≠ [] →
      ∃ v, trainModel imgs = some v ∧ trainRun prev imgs = some v ∧
        v.length = dim ∧
        ∀ i, i < dim →
          v.getD i 0 = ((imgs.filterMap id).map (fun e => e.getD i 0)).sum
            / ((imgs.filterMap id).length : ℚ)) := by
  have hc : collectEmbeddings imgs = imgs.filterMap id := collectEmbeddings_eq imgs
  constructor
  · intro hnil
    have hm : trainModel imgs = none := by
      unfold trainModel
      rw [hc, hnil]
      rfl
    exact ⟨hm, by unfold trainRun; rw [hm]⟩
  · intro hlen hne
    rcases hes : imgs.filterMap id with _ | ⟨e, es⟩
    · exact absurd hes hne
    · rw [hes] at hlen
      have hed : e.length = dim := hlen e (List.mem_cons_self e es)
      have hrest : ∀ x ∈ es, x.length = e.length := by
        intro x hx
        rw [hed, hlen x (List.mem_cons_of_mem e hx)]
      have hm : trainModel imgs
          = some (((es.foldl vadd e)).map (fun x => x / ((es.length : ℚ) + 1))) := by
        unfold trainModel
        rw [hc, hes]
        rfl
      refine ⟨_, hm, by unfold trainRun; rw [hm], ?_, ?_⟩
      · rw [List.length_map, foldl_vadd_length es e hrest, hed]
      · intro i hi
        have hie : i < e.length := by rw [hed]; exact hi
        have hif : i < (es.foldl vadd e).length := by
          rw [foldl_vadd_length es e hrest]; exact hie
        rw [getD_map_div _ _ i hif, foldl_vadd_getD es e i hrest hie]
        have hk : (((e :: es).length : ℚ)) = (es.length : ℚ) + 1 := by
          push_cast [List.length_cons]
          ring
        rw [hk]
        simp [List.map_cons, List.sum_cons]

/-- Witness for C3: of three images two embed, with mean [2, 3]; a run
with no successful detections leaves the previous reference intact. -/
theorem c3_enrollment_mean_witness :
    (trainModel [some [(1:ℚ), 2], none, some [3, 4]] = none ∨
      (∃ v, trainModel [some [(1:ℚ), 2], none, some [3, 4]] = some v ∧
        trainRun (some [(9:ℚ)]) [some [(1:ℚ), 2], none, some [3, 4]] = some v ∧
        v.length = 2 ∧
        ∀ i, i < 2 →
          v.getD i 0 = (([some [(1:ℚ), 2], none, some [3, 4]].filterMap id).map
              (fun e => e.getD i 0)).sum
            / (([some [(1:ℚ), 2], none, some [3, 4]].filterMap id).length : ℚ))) ∧
    trainRun (some [(9:ℚ)]) [none, none] = some [(9:ℚ)] :=
  ⟨Or.inr ((c3_enrollment_mean [some [(1:ℚ), 2], none, some [3, 4]]
      (some [(9:ℚ)]) 2).2 (by decide) (by decide)),
   ((c3_enrollment_mean [none, none] (some [(9:ℚ)]) 2).1 (by decide)).2⟩

theorem lastMatchIdx_none_iff (u : String) (rows : List TaskRow) :
    lastMatchIdx rows u = none ↔ ∀ r ∈ rows, r.user ≠ u := by
  induction rows with
  | nil => simp [lastMatchIdx]
  | cons r rs ih =>
    simp only [lastMatchIdx]
    cases h : lastMatchIdx rs u with
    | some i =>
      simp only [h] at ih
      simp [List.forall_mem_cons, ← ih]
    | none =>
      by_cases hr : r.user = u <;>
        simp [hr, List.forall_mem_cons, ← ih, h]

theorem getD_mem_of_lt {l : List TaskRow} {i : Nat} (h : i < l.length) :
    l.getD i default ∈ l := by
  rw [List.getD_eq_getElem?_getD, List.getElem?_eq_getElem h]
  exact List.getElem_mem h

theorem lastMatchIdx_spec (u : String) (rows : List TaskRow) :
    ∀ i, lastMatchIdx rows u = some i →
      i < rows.length ∧ (rows.getD i default).user = u ∧
      ∀ j, i < j → j < rows.length → (rows.getD j default).user ≠ u := by
  induction rows with
  | nil => intro i h; simp [lastMatchIdx] at h
  | cons r rs ih =>
    intro i h
    simp only [lastMatchIdx] at h
    cases hrs : lastMatchIdx rs u with
    | some k =>
      rw [hrs] at h
      obtain rfl : i = k + 1 := by
        simpa using h.symm
      obtain ⟨hk1, hk2, hk3⟩ := ih k hrs
      refine ⟨by simpa using Nat.succ_lt_succ hk1, by simpa using hk2, ?_⟩
      intro j hj1 hj2
      cases j with
      | zero => omega
      | succ j' =>
        simp only [List.getD_cons_succ]
        exact hk3 j' (Nat.lt_of_succ_lt_succ hj1)
          (by simpa using Nat.lt_of_succ_lt_succ hj2)
    | none =>
      rw [hrs] at h
      by_cases hr : r.user = u
      · rw [if_pos hr] at h
        obtain rfl : i = 0 := by simpa using h.symm
        refine ⟨by simp, by simpa using hr, ?_⟩
        intro j hj1 hj2
        cases j with
        | zero => omega
        | succ j' =>
          simp only [List.getD_cons_succ]
          have hall := (lastMatchIdx_none_iff u rs).mp hrs
          exact hall _ (getD_mem_of_lt (by simpa using Nat.lt_of_succ_lt_succ hj2))
      · rw [if_neg hr] at h
        exact absurd h (by simp)

/-- C8: the local-file branch of `update_task` rewrites only the status
cell of the last (most recently created) task row whose user column is
the employee's own username: the list keeps its length, every index
other than that row is unchanged, that row keeps all its other fields
with only status replaced, no row after it belongs to the user, and if
no row matches the username the file is not modified. -/
theorem c8_update_own_last_task (rows : List TaskRow) (u st : String) :
    ((∀ r ∈ rows, r.user ≠ u) → updateTask rows u st = rows) ∧
    (∀ i, lastMatchIdx rows u = some i →
      (updateTask rows u st).length = rows.length ∧
      (rows.getD i default).user = u ∧
      (∀ j, i < j → j < rows.length → (rows.getD j default).user ≠ u) ∧
      (∀ j, j ≠ i → (updateTask rows u st)[j]? = rows[j]?) ∧
      (updateTask rows u st)[i]? = some { rows.getD i default with status := st }) := by
  constructor
  · intro hall
    unfold updateTask
    rw [(lastMatchIdx_none_iff u rows).mpr hall]
  · intro i hidx
    obtain ⟨hlt, huser, hafter⟩ := lastMatchIdx_spec u rows i hidx
    have hup : updateTask rows u st
        = rows.set i { rows.getD i default with status := st } := by
      unfold updateTask
      rw [hidx]
    refine ⟨by rw [hup, List.length_set], huser, hafter, ?_, ?_⟩
    · intro j hj
      rw [hup]
      exact List.getElem?_set_ne (Ne.symm hj)
    · rw [hup]
      exact List.getElem?_set_self hlt

/-- Witness for C8 on a concrete three-row file: bob's later task (index
2) gets the new status while index 0 (bob's earlier task) and index 1
(amy's task) are untouched, and an unknown user changes nothing. -/
theorem c8_update_own_last_task_witness :
    (updateTask [⟨"bob", "t1", "Pending", "d1", "h1", "c1"⟩,
                 ⟨"amy", "t2", "Pending", "d2", "h2", "c2"⟩,
                 ⟨"bob", "t3", "Pending", "d3", "h3", "c3"⟩] "zoe" "Done"
      = [⟨"bob", "t1", "Pending", "d1", "h1", "c1"⟩,
         ⟨"amy", "t2", "Pending", "d2", "h2", "c2"⟩,
         ⟨"bob", "t3", "Pending", "d3", "h3", "c3"⟩]) ∧
    ((updateTask [⟨"bob", "t1", "Pending", "d1", "h1", "c1"⟩,
                  ⟨"amy", "t2", "Pending", "d2", "h2", "c2"⟩,
                  ⟨"bob", "t3", "Pending", "d3", "h3", "c3"⟩] "bob" "Done")[2]?
      = some ⟨"bob", "t3", "Done", "d3", "h3", "c3"⟩) ∧
    ((updateTask [⟨"bob", "t1", "Pending", "d1", "h1", "c1"⟩,
                  ⟨"amy", "t2", "Pending", "d2", "h2", "c2"⟩,
                  ⟨"bob", "t3", "Pending", "d3", "h3", "c3"⟩] "bob" "Done")[0]?
      = some ⟨"bob", "t1", "Pending", "d1", "h1", "c1"⟩) :=
  ⟨(c8_update_own_last_task [⟨"bob", "t1", "Pending", "d1", "h1", "c1"⟩,
      ⟨"amy", "t2", "Pending", "d2", "h2", "c2"⟩,
      ⟨"bob", "t3", "Pending", "d3", "h3", "c3"⟩] "zoe" "Done").1 (by decide),
   ((c8_update_own_last_task [⟨"bob", "t1", "Pending", "d1", "h1", "c1"⟩,
      ⟨"amy", "t2", "Pending", "d2", "h2", "c2"⟩,
      ⟨"bob", "t3", "Pending", "d3", "h3", "c3"⟩] "bob" "Done").2 2 (by decide)).2.2.2.2,
   ((c8_update_own_last_task [⟨"bob", "t1", "Pending", "d1", "h1", "c1"⟩,
      ⟨"amy", "t2", "Pending", "d2", "h2", "c2"⟩,
      ⟨"bob", "t3", "Pending", "d3", "h3", "c3"⟩] "bob" "Done").2 2 (by decide)).2.2.2.1
      0 (by decide)⟩

theorem dedupLast_of_nodup (file : List UserRow)
    (h : (file.map (fun r => r.username)).Nodup) : dedupLast file = file := by
  induction file with
  | nil => rfl
  | cons r rs ih =>
    simp only [List.map_cons, List.nodup_cons] at h
    have hany : rs.any (fun x => x.username = r.username) = false := by
      simp only [List.any_eq_false, decide_eq_true_eq]
      intro x hx hcontra
      exact h.1 (List.mem_map.mpr ⟨x, hx, hcontra⟩)
    simp only [dedupLast, hany]
    rw [ih h.2]
    simp

theorem any_username_iff (file : List UserRow) (u : String) :
    (file.any (fun x => x.username = u) = true) ↔
      u ∈ file.map (fun r => r.username) := by
  simp [List.any_eq_true, List.mem_map]

/-- C9: username uniqueness is an invariant of `users.csv` under
`add_user`: on a file with pairwise-distinct usernames, a request whose
username already exists is rejected with the file unwritten, while a
fresh non-empty username and password append exactly one row
(username, full name, password hash, created date), and the usernames
stay pairwise distinct. -/
theorem c9_username_unique (hashPwd : String → String) (file : List UserRow)
    (u f p t : String) (hnd : (file.map (fun r => r.username)).Nodup) :
    (u ∈ file.map (fun r => r.username) → addUser hashPwd file u f p t = file) ∧
    (u ∉ file.map (fun r => r.username) → u ≠ "" → p ≠ "" →
      addUser hashPwd file u f p t = file ++ [(⟨u, f, hashPwd p, t⟩ : UserRow)] ∧
      ((file ++ [(⟨u, f, hashPwd p, t⟩ : UserRow)]).map
        (fun r => r.username)).Nodup) := by
  constructor
  · intro hmem
    unfold addUser
    by_cases hblank : u = "" ∨ p = ""
    · rw [if_pos hblank]
    · rw [if_neg hblank]
      simp only [dedupLast_of_nodup file hnd]
      rw [if_pos ((any_username_iff file u).mpr hmem)]
  · intro hmem hu hp
    have hblank : ¬(u = "" ∨ p = "") := by
      rintro (h | h)
      · exact hu h
      · exact hp h
    have hany : file.any (fun x => x.username = u) = false := by
      cases hcase : file.any (fun x => x.username = u)
      · rfl
      · exact absurd ((any_username_iff file u).mp hcase) hmem
    constructor
    · unfold addUser
      rw [if_neg hblank]
      simp only [dedupLast_of_nodup file hnd]
      rw [if_neg (by simp [hany])]
    · simp only [List.map_append, List.map_cons, List.map_nil]
      exact hnd.append (List.nodup_singleton u)
        (fun a ha hb => hmem ((List.mem_singleton.mp hb) ▸ ha))

/-- Witness for C9 on a one-user file: adding existing user bob is a
no-op; adding fresh user amy appends exactly her hashed row and keeps
usernames distinct. -/
theorem c9_username_unique_witness :
    (addUser (fun p => p ++ "#h") [⟨"bob", "B", "x", "d"⟩] "bob" "A" "pw" "e"
      = [⟨"bob", "B", "x", "d"⟩]) ∧
    (addUser (fun p => p ++ "#h") [⟨"bob", "B", "x", "d"⟩] "amy" "A" "pw" "e"
      = [⟨"bob", "B", "x", "d"⟩, ⟨"amy", "A", "pw#h", "e"⟩] ∧
      (([⟨"bob", "B", "x", "d"⟩, (⟨"amy", "A", "pw#h", "e"⟩ : UserRow)]).map
        (fun r => r.username)).Nodup) :=
  ⟨(c9_username_unique (fun p => p ++ "#h") [⟨"bob", "B", "x", "d"⟩]
      "bob" "A" "pw" "e" (by decide)).1 (by decide),
   (c9_username_unique (fun p => p ++ "#h") [⟨"bob", "B", "x", "d"⟩]
      "amy" "A" "pw" "e" (by decide)).2 (by decide) (by decide) (by decide)⟩

/-- C10: `add_attendance` in `app.py` performs no duplicate check: every
call appends exactly one row with the given name and the current
date/time, so two manual marks on the same day leave two rows for the
same (name, date) pair — unlike the recognition-loop path. -/
theorem c10_manual_mark_no_dedup (store : List Record) (n : String) (d : DMY)
    (t1 t2 : Time12) :
    addAttendance store n d t1 = store ++ [⟨n, fmtDMY d, fmtTime12 t1⟩] ∧
    (addAttendance store n d t1).length = store.length + 1 ∧
    countFor (addAttendance (addAttendance store n d t1) n d t2) n (fmtDMY d)
      = countFor store n (fmtDMY d) + 2 := by
  refine ⟨rfl, by simp [addAttendance], ?_⟩
  simp [addAttendance, countFor_append, countFor]

end AiAttendance
